import Mathlib

/-!
Verification of the fastmarc MARC21 reader design.

The repository ships the benchmarking harness (`benchmark.py`) and build
scripting; the reader core itself (`fastmarc/reader.pyx`) is not part of the
visible sources, so the indexer, decoder and reader below are modelled from
the specification's description of the core (sections 3, 4 and 7 of the
design document).  The benchmark harness `bench_many` is modelled directly
from `src/benchmark.py`.

Bytes are modelled as natural numbers (values 0..255), byte strings as
`List Nat`.
-/

set_option maxRecDepth 10000

deriving instance DecidableEq for Except

namespace Marc

/-- Modelled from the spec: byte access in a byte source; positions past the
end read as the out-of-band value 0 (which is never a MARC delimiter). -/
def byteAt (src : List Nat) (i : Nat) : Nat := src.getD i 0

/-- Modelled from the spec: a byte is an ASCII decimal digit. -/
def isDigit (b : Nat) : Bool := decide (48 ≤ b ∧ b ≤ 57)

/-- Modelled from the spec: interpret a byte string as an ASCII decimal
integer, leading zeros permitted; `none` when some byte is not a digit. -/
def parseDec (bs : List Nat) : Option Nat :=
  if bs.all isDigit then some (bs.foldl (fun a b => a * 10 + (b - 48)) 0) else none

/-- Modelled from the spec: `RecordDescriptor {offset, length}`, the byte
span of one undecoded record within the source. -/
structure RecordDescriptor where
  offset : Nat
  length : Nat
deriving DecidableEq, Repr

/-- Modelled from the spec: the structural conditions signalled by index
construction (`TruncatedOrMalformedLength`, `InvalidRecordLength` with the
offending offset). -/
inductive IndexError where
  | truncatedOrMalformedLength
  | invalidRecordLength (offset : Nat)
deriving DecidableEq, Repr

/-- Modelled from the spec: the 5 bytes of a record-length field read at
`pos` (possibly fewer when the source ends). -/
def read5 (src : List Nat) (pos : Nat) : List Nat := (src.drop pos).take 5

/-- Modelled from the spec: read exactly 5 bytes at `pos` and interpret them
as an ASCII decimal record length; `none` when fewer than 5 bytes remain or
some byte is not a digit. -/
def parse5 (src : List Nat) (pos : Nat) : Option Nat :=
  if (read5 src pos).length = 5 then parseDec (read5 src pos) else none

/-- Modelled from the spec: one step of `StreamIndexer.build` per unit of
fuel.  Each recorded record advances the cursor by its length `L ≥ 24`
(the leader size), so `src.length` units of fuel always suffice; the
fuel-exhaustion branch is unreachable whenever `src.length ≤ fuel + pos`
(established by `buildAux_inv`). -/
def StreamIndexer.buildAux (src : List Nat) (fuel pos : Nat) :
    List RecordDescriptor × Option IndexError :=
  if pos = src.length then ([], none)
  else
    match parse5 src pos with
    | none => ([], some IndexError.truncatedOrMalformedLength)
    | some L =>
      if L < 24 then ([], some (IndexError.invalidRecordLength pos))
      else
        match fuel with
        | 0 => ([], some IndexError.truncatedOrMalformedLength)
        | fuel' + 1 =>
          let r := StreamIndexer.buildAux src fuel' (pos + L)
          ({ offset := pos, length := L } :: r.1, r.2)

/-- Modelled from the spec: `StreamIndexer.build(source)`: scan the source
from offset 0 reading only 5-byte length fields, emitting the index built so
far together with the structural condition, if any. -/
def StreamIndexer.build (src : List Nat) : List RecordDescriptor × Option IndexError :=
  StreamIndexer.buildAux src src.length 0

/-- The descriptors are consecutive byte spans starting at `pos`. -/
def chainedFrom (pos : Nat) : List RecordDescriptor → Bool
  | [] => true
  | d :: ds => decide (d.offset = pos) && chainedFrom (d.offset + d.length) ds

/-- The cursor position after scanning the given descriptors. -/
def endPos : Nat → List RecordDescriptor → Nat
  | pos, [] => pos
  | _, d :: ds => endPos (d.offset + d.length) ds

lemma parse5_some_le {src : List Nat} {pos L : Nat} (h : parse5 src pos = some L) :
    pos + 5 ≤ src.length := by
  unfold parse5 at h
  split at h
  · next hlen =>
    simp only [read5, List.length_take, List.length_drop] at hlen
    omega
  · exact absurd h (by simp)

/-- Modelled from the spec: `Subfield {code, value}` of a data field. -/
structure Subfield where
  code : Nat
  value : List Nat
deriving DecidableEq, Repr

/-- Modelled from the spec: a directory entry `{tag, field_length,
field_start}` parsed from one fixed 12-byte slot. -/
structure DirEntry where
  tag : List Nat
  fieldLength : Nat
  fieldStart : Nat
deriving DecidableEq, Repr

/-- Modelled from the spec: the 24-byte leader, kept verbatim together with
its two parsed 5-digit numeric fields. -/
structure Leader where
  raw : List Nat
  recordLength : Nat
  baseAddress : Nat
deriving DecidableEq, Repr

/-- Modelled from the spec: a field is either a control field (tag below
"010", raw payload) or a data field (two indicator bytes plus subfields). -/
inductive Field where
  | control (tag : List Nat) (value : List Nat)
  | data (tag : List Nat) (indicators : List Nat) (subfields : List Subfield)
deriving DecidableEq, Repr

/-- Modelled from the spec: `Record {leader, fields}`. -/
structure Record where
  leader : Leader
  fields : List Field
deriving DecidableEq, Repr

/-- Modelled from the spec: a decoded record together with the warning
marker for the soft `RecordTerminatorMissing` condition. -/
structure Decoded where
  record : Record
  terminatorMissing : Bool
deriving DecidableEq, Repr

/-- Modelled from the spec: the per-record decode conditions. -/
inductive DecodeError where
  | invalidLeader
  | directoryCorrupt
  | fieldTerminatorMissing
  | indexOutOfRange
deriving DecidableEq, Repr

/-- State of the subfield scanner: before the first delimiter, right after a
delimiter (the next byte is the subfield code), or inside a subfield value
(code and reversed value bytes collected so far). -/
inductive SubState where
  | outside
  | awaitCode
  | inValue (code : Nat) (valueRev : List Nat)

/-- Modelled from the spec: split the remainder of a data field on the
subfield-delimiter byte 0x1F; each subfield is one code byte followed by its
value bytes up to the next delimiter or field end; bytes before the first
delimiter belong to no subfield. -/
def subScan : List Nat → SubState → List Subfield
  | [], SubState.outside => []
  | [], SubState.awaitCode => []
  | [], SubState.inValue c vr => [{ code := c, value := vr.reverse }]
  | b :: rest, SubState.outside =>
    if b = 31 then subScan rest SubState.awaitCode else subScan rest SubState.outside
  | b :: rest, SubState.awaitCode => subScan rest (SubState.inValue b [])
  | b :: rest, SubState.inValue c vr =>
    if b = 31 then { code := c, value := vr.reverse } :: subScan rest SubState.awaitCode
    else subScan rest (SubState.inValue c (b :: vr))

/-- Modelled from the spec: the subfields of a data field's content. -/
def parseSubfields (bs : List Nat) : List Subfield := subScan bs SubState.outside

/-- Value of a 3-byte tag for ordering (base-256, which on equal-length byte
strings agrees with byte-wise lexicographic order). -/
def tagVal (t : List Nat) : Nat := t.foldl (fun a b => a * 256 + b) 0

/-- Modelled from the spec: tags below "010" denote control fields. -/
def tagLt010 (t : List Nat) : Bool := decide (tagVal t < tagVal [48, 49, 48])

/-- Modelled from the spec: classify a field by tag; control fields keep the
raw bytes verbatim, data fields take the first two bytes as indicators and
split the remainder into subfields. -/
def classify (tag raw : List Nat) : Field :=
  if tagLt010 tag then Field.control tag raw
  else Field.data tag (raw.take 2) (parseSubfields (raw.drop 2))

/-- The wire encoding of a list of subfields inside a data field: each
subfield is a 0x1F delimiter, the code byte, then the value bytes. -/
def chunks : List Subfield → List Nat
  | [] => []
  | s :: t => 31 :: s.code :: s.value ++ chunks t

/-- Modelled from the spec: parse the 24-byte leader, extracting
`record_length` (bytes 0-4) and `base_address` (bytes 12-16); fail with
`InvalidLeader` when fewer than 24 bytes are given or either 5-digit numeric
field is non-numeric. -/
def parseLeader (bytes : List Nat) : Except DecodeError (Nat × Nat) :=
  if bytes.length < 24 then Except.error DecodeError.invalidLeader
  else
    match parseDec (bytes.take 5), parseDec ((bytes.drop 12).take 5) with
    | some rl, some ba => Except.ok (rl, ba)
    | _, _ => Except.error DecodeError.invalidLeader

/-- Modelled from the spec: position of the first field-terminator byte 0x1E
strictly before `base_address`, scanning from byte 24. -/
def dirTermPos (bytes : List Nat) (ba : Nat) : Option Nat :=
  (List.range' 24 (ba - 24)).find? (fun p => decide (byteAt bytes p = 30))

/-- Modelled from the spec: parse the `i`-th 12-byte directory slot: 3 tag
bytes, 4 ASCII digits of `field_length`, 5 ASCII digits of `field_start`. -/
def parseEntry (bytes : List Nat) (i : Nat) : Option DirEntry :=
  match parseDec ((bytes.drop (24 + 12 * i + 3)).take 4),
        parseDec ((bytes.drop (24 + 12 * i + 7)).take 5) with
  | some fl, some fs =>
    some { tag := (bytes.drop (24 + 12 * i)).take 3, fieldLength := fl, fieldStart := fs }
  | _, _ => none

/-- Modelled from the spec: parse the directory, a run of 12-byte entries
from byte 24 up to a field-terminator byte at an entry boundary; fail with
`DirectoryCorrupt` when the terminator is absent before `base_address`, when
its position is not 12-byte aligned, or when an entry's numeric fields are
non-numeric. -/
def parseDirectory (bytes : List Nat) (ba : Nat) : Except DecodeError (List DirEntry) :=
  match dirTermPos bytes ba with
  | none => Except.error DecodeError.directoryCorrupt
  | some p =>
    if (p - 24) % 12 = 0 then
      match (List.range ((p - 24) / 12)).mapM (parseEntry bytes) with
      | some entries => Except.ok entries
      | none => Except.error DecodeError.directoryCorrupt
    else Except.error DecodeError.directoryCorrupt

/-- Modelled from the spec: the raw bytes of a field, sliced from
`base_address + field_start` for `field_length` bytes. -/
def rawOf (bytes : List Nat) (ba : Nat) (e : DirEntry) : List Nat :=
  (bytes.drop (ba + e.fieldStart)).take e.fieldLength

/-- Modelled from the spec: decode one field: its trailing terminator 0x1E
must be present right after the sliced span — fail `FieldTerminatorMissing`
otherwise — and the sliced bytes are classified by tag. -/
def decodeField (bytes : List Nat) (ba : Nat) (e : DirEntry) : Except DecodeError Field :=
  if byteAt bytes (ba + e.fieldStart + e.fieldLength) = 30 then
    Except.ok (classify e.tag (rawOf bytes ba e))
  else Except.error DecodeError.fieldTerminatorMissing

/-- Modelled from the spec: decode the fields of all directory entries in
order, stopping at the first per-field failure. -/
def decodeFields (bytes : List Nat) (ba : Nat) : List DirEntry → Except DecodeError (List Field)
  | [] => Except.ok []
  | e :: es =>
    match decodeField bytes ba e with
    | Except.error err => Except.error err
    | Except.ok f =>
      match decodeFields bytes ba es with
      | Except.error err => Except.error err
      | Except.ok fs => Except.ok (f :: fs)

/-- Modelled from the spec: steps 1-4 of `RecordDecoder`: leader, directory
and fields of one record's byte span. -/
def decodeBody (bytes : List Nat) : Except DecodeError Record :=
  match parseLeader bytes with
  | Except.error e => Except.error e
  | Except.ok (rl, ba) =>
    match parseDirectory bytes ba with
    | Except.error e => Except.error e
    | Except.ok entries =>
      match decodeFields bytes ba entries with
      | Except.error e => Except.error e
      | Except.ok fields =>
        Except.ok { leader := { raw := bytes.take 24, recordLength := rl, baseAddress := ba },
                    fields := fields }

/-- Modelled from the spec: `RecordDecoder` on one record's byte span; the
record-terminator byte 0x1D must sit at `record_length - 1`, and its absence
only sets the soft `RecordTerminatorMissing` warning marker on the returned
record. -/
def decodeRecord (bytes : List Nat) : Except DecodeError Decoded :=
  match decodeBody bytes with
  | Except.error e => Except.error e
  | Except.ok rec =>
    Except.ok { record := rec,
                terminatorMissing := decide (¬ byteAt bytes (rec.leader.recordLength - 1) = 29) }

/-- Modelled from the spec: the Reader owns the byte source, the Index built
by `StreamIndexer` at construction, and the structural condition the indexer
signalled, if any. -/
structure Reader where
  source : List Nat
  index : List RecordDescriptor
  indexError : Option IndexError
deriving DecidableEq, Repr

/-- Modelled from the spec: `open(source)` eagerly builds the index once. -/
def mkReader (src : List Nat) : Reader :=
  { source := src
    index := (StreamIndexer.build src).1
    indexError := (StreamIndexer.build src).2 }

/-- Modelled from the spec: the byte span of one descriptor in the source. -/
def recordSpan (src : List Nat) (d : RecordDescriptor) : List Nat :=
  (src.drop d.offset).take d.length

/-- Modelled from the spec: `len(reader)`, the number of descriptors. -/
def Reader.len (r : Reader) : Nat := r.index.length

/-- Modelled from the spec: `iterate(reader)`, one decode result per
descriptor in index order, re-reading and re-decoding from the source. -/
def Reader.iterate (r : Reader) : List (Except DecodeError Decoded) :=
  r.index.map (fun d => decodeRecord (recordSpan r.source d))

/-- Modelled from the spec: `get(reader, i)`, decode the i-th record;
`IndexOutOfRange` when `i ≥ len(reader)`. -/
def Reader.get (r : Reader) (i : Nat) : Except DecodeError Decoded :=
  match r.index[i]? with
  | some d => decodeRecord (recordSpan r.source d)
  | none => Except.error DecodeError.indexOutOfRange

/-- The byte span `get` decodes at position `j`, when `j` is in range. -/
def Reader.spanAt (r : Reader) (j : Nat) : Option (List Nat) :=
  (r.index[j]?).map (fun d => recordSpan r.source d)

/-- Whether a per-record decode result is a success. -/
def decodeOk : Except DecodeError Decoded → Bool
  | Except.ok _ => true
  | Except.error _ => false

/-- The successfully decoded records of a full iteration pass. -/
def okRecords (l : List (Except DecodeError Decoded)) : List Decoded :=
  l.filterMap (fun x => match x with | Except.ok a => some a | Except.error _ => none)

/-- A well-formed one-record source: leader declaring record length 47 and
base address 37, one directory entry for control tag "001" with field length
8 and field start 0, field value "ocm12345", field terminator, record
terminator. -/
def sampleSrc : List Nat :=
  [48, 48, 48, 52, 55, 97, 97, 97, 97, 97, 97, 97,
   48, 48, 48, 51, 55, 97, 97, 97, 97, 97, 97, 97,
   48, 48, 49, 48, 48, 48, 56, 48, 48, 48, 48, 48, 30,
   111, 99, 109, 49, 50, 51, 52, 53, 30, 29]

/-- `sampleSrc` with the field terminator at offset 45 overwritten. -/
def sampleBad : List Nat := sampleSrc.set 45 0

/-- `sampleSrc` with the record terminator at offset 46 overwritten. -/
def sampleNoTerm : List Nat := sampleSrc.set 46 0

/-- `sampleSrc` followed by two stray bytes: a truncated tail. -/
def truncSrc : List Nat := sampleSrc ++ [48, 48]

/-- Two well-formed records back to back. -/
def srcTwo : List Nat := sampleSrc ++ sampleSrc

/-- Two records, the first with its field terminator corrupted. -/
def srcTwoBad : List Nat := sampleBad ++ sampleSrc

/-- The record value `sampleSrc` decodes to. -/
def sampleRec : Record :=
  { leader := { raw := [48, 48, 48, 52, 55, 97, 97, 97, 97, 97, 97, 97,
                        48, 48, 48, 51, 55, 97, 97, 97, 97, 97, 97, 97],
                recordLength := 47, baseAddress := 37 },
    fields := [Field.control [48, 48, 49] [111, 99, 109, 49, 50, 51, 52, 53]] }

lemma buildAux_inv (src : List Nat) :
    ∀ fuel pos, src.length ≤ fuel + pos →
      (∀ d ∈ (StreamIndexer.buildAux src fuel pos).1,
          parse5 src d.offset = some d.length ∧ 24 ≤ d.length) ∧
      chainedFrom pos (StreamIndexer.buildAux src fuel pos).1 = true ∧
      ((StreamIndexer.buildAux src fuel pos).2 = none ↔
        endPos pos (StreamIndexer.buildAux src fuel pos).1 = src.length) ∧
      ((StreamIndexer.buildAux src fuel pos).2 = some IndexError.truncatedOrMalformedLength →
        parse5 src (endPos pos (StreamIndexer.buildAux src fuel pos).1) = none ∧
        endPos pos (StreamIndexer.buildAux src fuel pos).1 ≠ src.length) := by
  intro fuel
  induction fuel with
  | zero =>
    intro pos hle
    by_cases hpos : pos = src.length
    · have hB : StreamIndexer.buildAux src 0 pos = ([], none) := by
        unfold StreamIndexer.buildAux; simp [hpos]
      rw [hB]
      simp [chainedFrom, endPos, hpos]
    · have hnone : parse5 src pos = none := by
        cases hp : parse5 src pos with
        | none => rfl
        | some L => exact absurd (parse5_some_le hp) (by omega)
      have hB : StreamIndexer.buildAux src 0 pos
          = ([], some IndexError.truncatedOrMalformedLength) := by
        unfold StreamIndexer.buildAux; simp [hpos, hnone]
      rw [hB]
      simp [chainedFrom, endPos, hpos]
      exact hnone
  | succ fuel ih =>
    intro pos hle
    by_cases hpos : pos = src.length
    · have hB : StreamIndexer.buildAux src (fuel + 1) pos = ([], none) := by
        unfold StreamIndexer.buildAux; simp [hpos]
      rw [hB]
      simp [chainedFrom, endPos, hpos]
    · cases hp : parse5 src pos with
      | none =>
        have hB : StreamIndexer.buildAux src (fuel + 1) pos
            = ([], some IndexError.truncatedOrMalformedLength) := by
          unfold StreamIndexer.buildAux; simp [hpos, hp]
        rw [hB]
        simp [chainedFrom, endPos, hpos]
        exact hp
      | some L =>
        by_cases hL : L < 24
        · have hB : StreamIndexer.buildAux src (fuel + 1) pos
              = ([], some (IndexError.invalidRecordLength pos)) := by
            unfold StreamIndexer.buildAux; simp [hpos, hp, hL]
          rw [hB]
          simp [chainedFrom, endPos, hpos]
        · have h5 := parse5_some_le hp
          have hle2 : src.length ≤ fuel + (pos + L) := by omega
          obtain ⟨ihd, ihc, ihiff, ihtr⟩ := ih (pos + L) hle2
          have hB : StreamIndexer.buildAux src (fuel + 1) pos
              = ({ offset := pos, length := L } :: (StreamIndexer.buildAux src fuel (pos + L)).1,
                 (StreamIndexer.buildAux src fuel (pos + L)).2) := by
            conv_lhs => unfold StreamIndexer.buildAux
            simp [hpos, hp, hL]
          rw [hB]
          refine ⟨?_, ?_, ?_, ?_⟩
          · intro d hd
            rcases List.mem_cons.mp hd with h | h
            · subst h; exact ⟨hp, by show 24 ≤ L; omega⟩
            · exact ihd d h
          · simpa [chainedFrom] using ihc
          · simpa [endPos] using ihiff
          · simpa [endPos] using ihtr

/-- Claim C3: `StreamIndexer.build` records, for each descriptor, the offset
of a 5-byte ASCII decimal length read at the current cursor and that parsed
length; descriptors chain consecutively from offset 0 (the cursor advances
by each length); and the scan succeeds (no signalled condition) exactly when
the final cursor position equals the total source length. -/
theorem c3_build_scan (src : List Nat) :
    (∀ d ∈ (StreamIndexer.build src).1,
        parse5 src d.offset = some d.length ∧ 24 ≤ d.length) ∧
    chainedFrom 0 (StreamIndexer.build src).1 = true ∧
    ((StreamIndexer.build src).2 = none ↔
      endPos 0 (StreamIndexer.build src).1 = src.length) := by
  obtain ⟨h1, h2, h3, _⟩ := buildAux_inv src src.length 0 (by omega)
  exact ⟨h1, h2, h3⟩

theorem c3_witness :
    parse5 sampleSrc 0 = some 47 ∧ (StreamIndexer.build sampleSrc).2 = none :=
  ⟨((c3_build_scan sampleSrc).1 { offset := 0, length := 47 } (by decide)).1,
   (c3_build_scan sampleSrc).2.2.mpr (by decide)⟩

/-- Claim C4: whenever indexing signals `TruncatedOrMalformedLength`, the
scan stopped at a cursor position where the 5-byte length read failed (fewer
than 5 bytes remained or a non-digit byte was read) before end-of-source,
and the returned index is the successfully scanned prefix: consecutive
descriptors from offset 0, each carrying the length parsed at its offset.
Nothing is dropped silently: the partial index is returned together with the
signalled condition. -/
theorem c4_truncation_signaled (src : List Nat)
    (h : (StreamIndexer.build src).2 = some IndexError.truncatedOrMalformedLength) :
    parse5 src (endPos 0 (StreamIndexer.build src).1) = none ∧
    endPos 0 (StreamIndexer.build src).1 ≠ src.length ∧
    (∀ d ∈ (StreamIndexer.build src).1, parse5 src d.offset = some d.length) ∧
    chainedFrom 0 (StreamIndexer.build src).1 = true := by
  obtain ⟨h1, h2, _, h4⟩ := buildAux_inv src src.length 0 (by omega)
  obtain ⟨ha, hb⟩ := h4 h
  exact ⟨ha, hb, fun d hd => (h1 d hd).1, h2⟩

theorem c4_witness :
    parse5 truncSrc (endPos 0 (StreamIndexer.build truncSrc).1) = none ∧
    endPos 0 (StreamIndexer.build truncSrc).1 ≠ truncSrc.length :=
  (fun h => ⟨h.1, h.2.1⟩) (c4_truncation_signaled truncSrc (by decide))

/-- Claim C9: a 0-byte source produces an empty Index and no error: the
cursor equals the total length immediately, so the scan succeeds instead of
signalling `TruncatedOrMalformedLength`. -/
theorem c9_empty_source : StreamIndexer.build ([] : List Nat) = ([], none) := by
  decide

lemma okRecords_length (l : List (Except DecodeError Decoded))
    (h : ∀ x ∈ l, decodeOk x = true) : (okRecords l).length = l.length := by
  induction l with
  | nil => rfl
  | cons x t ih =>
    cases x with
    | ok a =>
      simp only [okRecords, List.filterMap_cons] at *
      simpa using ih (fun y hy => h y (List.mem_cons_of_mem _ hy))
    | error e =>
      exact absurd (h _ (List.mem_cons_self _ _)) (by simp [decodeOk])

/-- Claim C1: for a well-formed source (index built with no signalled
condition and every record decoding successfully), the number of records
obtained by fully consuming `iterate` equals `len(reader)`, the number of
descriptors in the Index. -/
theorem c1_len_eq_iteration_count (src : List Nat)
    (_hwf : (mkReader src).indexError = none)
    (hok : ∀ x ∈ Reader.iterate (mkReader src), decodeOk x = true) :
    (okRecords (Reader.iterate (mkReader src))).length = Reader.len (mkReader src) := by
  rw [okRecords_length _ hok]
  simp [Reader.iterate, Reader.len]

theorem c1_witness :
    (okRecords (Reader.iterate (mkReader sampleSrc))).length = Reader.len (mkReader sampleSrc) :=
  c1_len_eq_iteration_count sampleSrc (by decide) (by decide)

/-- Claim C2: iteration is a pure function of the Reader's source and Index
(and it mutates neither), so two independent `iterate` passes over the same
Reader — any two Reader values agreeing on source and Index — produce
pairwise-equal decode results in the same order. -/
theorem c2_iterate_restartable (r₁ r₂ : Reader)
    (hs : r₁.source = r₂.source) (hi : r₁.index = r₂.index) :
    Reader.iterate r₁ = Reader.iterate r₂ := by
  simp [Reader.iterate, hs, hi]

theorem c2_witness :
    Reader.iterate (mkReader sampleSrc) = Reader.iterate (mkReader sampleSrc) :=
  c2_iterate_restartable (mkReader sampleSrc) (mkReader sampleSrc) rfl rfl

lemma subScan_cons_outside (b : Nat) (rest : List Nat) :
    subScan (b :: rest) SubState.outside
      = if b = 31 then subScan rest SubState.awaitCode else subScan rest SubState.outside := rfl

lemma subScan_cons_await (b : Nat) (rest : List Nat) :
    subScan (b :: rest) SubState.awaitCode = subScan rest (SubState.inValue b []) := rfl

lemma subScan_cons_inValue (b c : Nat) (vr rest : List Nat) :
    subScan (b :: rest) (SubState.inValue c vr)
      = if b = 31 then { code := c, value := vr.reverse } :: subScan rest SubState.awaitCode
        else subScan rest (SubState.inValue c (b :: vr)) := rfl

lemma subScan_value_walk (v : List Nat) (hv : (31 : Nat) ∉ v) :
    ∀ (rest : List Nat) (c : Nat) (vr : List Nat),
      subScan (v ++ rest) (SubState.inValue c vr)
        = subScan rest (SubState.inValue c (v.reverse ++ vr)) := by
  induction v with
  | nil => intro rest c vr; simp
  | cons b v ih =>
    intro rest c vr
    have hb : ¬ b = 31 := fun hh => hv (by simp [hh])
    have hv2 : (31 : Nat) ∉ v := fun hm => hv (List.mem_cons_of_mem _ hm)
    rw [List.cons_append, subScan_cons_inValue, if_neg hb, ih hv2 rest c (b :: vr)]
    have harg : (b :: v).reverse ++ vr = v.reverse ++ b :: vr := by simp
    rw [harg]

lemma subScan_chunks (sfs : List Subfield) (h : ∀ s ∈ sfs, (31 : Nat) ∉ s.value) :
    ∀ (c : Nat) (vr : List Nat),
      subScan (chunks sfs) (SubState.inValue c vr)
        = { code := c, value := vr.reverse } :: sfs := by
  induction sfs with
  | nil => intro c vr; simp [chunks, subScan]
  | cons s t ih =>
    intro c vr
    have hsv : (31 : Nat) ∉ s.value := h _ (List.mem_cons_self _ _)
    have ht : ∀ x ∈ t, (31 : Nat) ∉ x.value := fun x hx => h x (List.mem_cons_of_mem _ hx)
    show subScan (31 :: s.code :: (s.value ++ chunks t)) (SubState.inValue c vr)
        = { code := c, value := vr.reverse } :: s :: t
    rw [subScan_cons_inValue, if_pos rfl, subScan_cons_await]
    rw [subScan_value_walk s.value hsv (chunks t) s.code []]
    rw [ih ht]
    simp

/-- Round trip: parsing the wire encoding of any list of subfields whose
values avoid the delimiter byte recovers exactly those subfields. -/
lemma parseSubfields_chunks (sfs : List Subfield)
    (h : ∀ s ∈ sfs, (31 : Nat) ∉ s.value) :
    parseSubfields (chunks sfs) = sfs := by
  cases sfs with
  | nil => rfl
  | cons s t =>
    have hsv : (31 : Nat) ∉ s.value := h _ (List.mem_cons_self _ _)
    have ht : ∀ x ∈ t, (31 : Nat) ∉ x.value := fun x hx => h x (List.mem_cons_of_mem _ hx)
    show subScan (31 :: s.code :: (s.value ++ chunks t)) SubState.outside = s :: t
    rw [subScan_cons_outside, if_pos rfl, subScan_cons_await]
    rw [subScan_value_walk s.value hsv (chunks t) s.code []]
    rw [subScan_chunks t ht]
    simp

/-- Content with no delimiter byte yields zero subfields. -/
lemma parseSubfields_no_delim (bs : List Nat) (h : (31 : Nat) ∉ bs) :
    parseSubfields bs = [] := by
  induction bs with
  | nil => rfl
  | cons b t ih =>
    have hb : ¬ b = 31 := fun hh => h (by simp [hh])
    have ht : (31 : Nat) ∉ t := fun hm => h (List.mem_cons_of_mem _ hm)
    show subScan (b :: t) SubState.outside = []
    rw [subScan_cons_outside, if_neg hb]
    exact ih ht

/-- Claim C5: field classification by tag: a tag below "010" gives a control
field holding the raw bytes verbatim; any other tag gives a data field whose
indicators are the first two raw bytes, with the remainder split on the
subfield delimiter 0x1F — concretely, content consisting of two indicator
bytes followed by delimiter-separated (code, value) chunks parses back to
exactly those subfields, and content with no delimiter yields zero
subfields (not an error). -/
theorem c5_field_classification (tag raw ind : List Nat) (sfs : List Subfield) :
    (tagLt010 tag = true → classify tag raw = Field.control tag raw) ∧
    (tagLt010 tag = false →
      classify tag raw = Field.data tag (raw.take 2) (parseSubfields (raw.drop 2))) ∧
    (tagLt010 tag = false → ind.length = 2 → (∀ s ∈ sfs, (31 : Nat) ∉ s.value) →
      classify tag (ind ++ chunks sfs) = Field.data tag ind sfs) ∧
    (tagLt010 tag = false → (31 : Nat) ∉ raw.drop 2 →
      classify tag raw = Field.data tag (raw.take 2) []) := by
  refine ⟨fun h => by simp [classify, h], fun h => by simp [classify, h], ?_, ?_⟩
  · intro h h2 h3
    simp only [classify, h, Bool.false_eq_true, if_false]
    rw [List.take_left' h2, List.drop_left' h2, parseSubfields_chunks sfs h3]
  · intro h h2
    simp only [classify, h, Bool.false_eq_true, if_false]
    rw [parseSubfields_no_delim _ h2]

/-- The tag bytes of "245". -/
def tag245 : List Nat := [50, 52, 53]

/-- Subfields a "Title :" and b "subtitle" of the spec scenario. -/
def sfsTitle : List Subfield :=
  [{ code := 97, value := [84, 105, 116, 108, 101, 32, 58] },
   { code := 98, value := [115, 117, 98, 116, 105, 116, 108, 101] }]

theorem c5_witness :
    classify [48, 48, 49] [111, 99, 109] = Field.control [48, 48, 49] [111, 99, 109] ∧
    classify tag245 ([49, 48] ++ chunks sfsTitle) = Field.data tag245 [49, 48] sfsTitle ∧
    classify tag245 [49, 48, 97, 98] = Field.data tag245 [49, 48] [] :=
  ⟨(c5_field_classification [48, 48, 49] [111, 99, 109] [] []).1 (by decide),
   (c5_field_classification tag245 [] [49, 48] sfsTitle).2.2.1 (by decide) (by decide)
     (by decide),
   (c5_field_classification tag245 [49, 48, 97, 98] [] []).2.2.2 (by decide) (by decide)⟩

/-- Claim C6: the record terminator is a soft condition: when the body of a
record (leader, directory, fields) decodes successfully but the byte at
`record_length - 1` is not the record terminator 0x1D, the decoder still
returns the fully parsed record, with the `RecordTerminatorMissing` warning
marker set, instead of an error. -/
theorem c6_terminator_soft (bytes : List Nat) (rec : Record)
    (hbody : decodeBody bytes = Except.ok rec)
    (hterm : byteAt bytes (rec.leader.recordLength - 1) ≠ 29) :
    decodeRecord bytes = Except.ok { record := rec, terminatorMissing := true } := by
  unfold decodeRecord
  rw [hbody]
  simp [hterm]

theorem c6_witness :
    decodeRecord sampleNoTerm = Except.ok { record := sampleRec, terminatorMissing := true } :=
  c6_terminator_soft sampleNoTerm sampleRec (by decide) (by decide)

/-- Claim C7: decode failures are isolated per record: `get j` depends only
on the byte span the Index assigns to position `j`, so any two Readers
agreeing on that span (for example, the same file with and without a
corrupted byte inside some other record) return the same result at `j`; a
failing `get` mutates nothing, the Reader and Index being read-only values.
-/
theorem c7_get_isolated (r₁ r₂ : Reader) (j : Nat)
    (hspan : r₁.spanAt j = r₂.spanAt j) :
    Reader.get r₁ j = Reader.get r₂ j := by
  unfold Reader.spanAt at hspan
  unfold Reader.get
  cases h₁ : r₁.index[j]? with
  | none =>
    cases h₂ : r₂.index[j]? with
    | none => rfl
    | some d₂ => rw [h₁, h₂] at hspan; simp at hspan
  | some d₁ =>
    cases h₂ : r₂.index[j]? with
    | none => rw [h₁, h₂] at hspan; simp at hspan
    | some d₂ =>
      rw [h₁, h₂] at hspan
      simp at hspan
      show decodeRecord (recordSpan r₁.source d₁) = decodeRecord (recordSpan r₂.source d₂)
      rw [hspan]

theorem c7_witness :
    Reader.get (mkReader srcTwoBad) 1 = Reader.get (mkReader srcTwo) 1 ∧
    Reader.get (mkReader srcTwoBad) 0 = Except.error DecodeError.fieldTerminatorMissing ∧
    Reader.get (mkReader srcTwo) 0
      = Except.ok { record := sampleRec, terminatorMissing := false } :=
  ⟨c7_get_isolated (mkReader srcTwoBad) (mkReader srcTwo) 1 (by decide),
   by decide, by decide⟩

lemma decodeField_ok {bytes : List Nat} {ba : Nat} {e : DirEntry} {f : Field}
    (h : decodeField bytes ba e = Except.ok f) :
    (rawOf bytes ba e).length = e.fieldLength ∧ f = classify e.tag (rawOf bytes ba e) := by
  unfold decodeField at h
  split at h
  · next hterm =>
    have hlt : ba + e.fieldStart + e.fieldLength < bytes.length := by
      by_contra hge
      push_neg at hge
      have hz : byteAt bytes (ba + e.fieldStart + e.fieldLength) = 0 := by
        unfold byteAt
        exact List.getD_eq_default _ _ hge
      omega
    refine ⟨?_, ?_⟩
    · unfold rawOf
      simp only [List.length_take, List.length_drop]
      omega
    · simp only [Except.ok.injEq] at h
      exact h.symm
  · exact absurd h (by simp)

lemma decodeFields_ok {bytes : List Nat} {ba : Nat} :
    ∀ {es : List DirEntry} {fs : List Field},
      decodeFields bytes ba es = Except.ok fs →
      fs.length = es.length ∧
      ∀ i (hi : i < es.length) (hf : i < fs.length),
        decodeField bytes ba (es.get ⟨i, hi⟩) = Except.ok (fs.get ⟨i, hf⟩) := by
  intro es
  induction es with
  | nil =>
    intro fs h
    simp only [decodeFields, Except.ok.injEq] at h
    subst h
    exact ⟨rfl, fun i hi => absurd hi (by simp)⟩
  | cons e es ih =>
    intro fs h
    unfold decodeFields at h
    cases h1 : decodeField bytes ba e with
    | error err => rw [h1] at h; exact absurd h (by simp)
    | ok f =>
      rw [h1] at h
      cases h2 : decodeFields bytes ba es with
      | error err => rw [h2] at h; exact absurd h (by simp)
      | ok fs2 =>
        rw [h2] at h
        simp only [Except.ok.injEq] at h
        subst h
        obtain ⟨hl, hg⟩ := ih h2
        refine ⟨by simp [hl], ?_⟩
        intro i hi hf
        cases i with
        | zero => simpa using h1
        | succ i =>
          simp only [List.length_cons] at hi hf
          show decodeField bytes ba (es.get ⟨i, by omega⟩) = Except.ok (fs2.get ⟨i, by omega⟩)
          exact hg i (by omega) (by omega)

/-- Claim C8: round trip on directory lengths: for every successfully
decoded record, the directory parse succeeded, the record has one field per
directory entry, and each field was classified from a raw slice of exactly
`field_length` bytes taken at `base_address + field_start`. -/
theorem c8_directory_roundtrip (bytes : List Nat) (rec : Record) (w : Bool)
    (h : decodeRecord bytes = Except.ok { record := rec, terminatorMissing := w }) :
    ∃ entries, parseDirectory bytes rec.leader.baseAddress = Except.ok entries ∧
      rec.fields.length = entries.length ∧
      ∀ i (hi : i < entries.length) (hf : i < rec.fields.length),
        (rawOf bytes rec.leader.baseAddress (entries.get ⟨i, hi⟩)).length
            = (entries.get ⟨i, hi⟩).fieldLength ∧
        rec.fields.get ⟨i, hf⟩
            = classify (entries.get ⟨i, hi⟩).tag
                (rawOf bytes rec.leader.baseAddress (entries.get ⟨i, hi⟩)) := by
  unfold decodeRecord at h
  cases hb : decodeBody bytes with
  | error e => rw [hb] at h; exact absurd h (by simp)
  | ok rec2 =>
    rw [hb] at h
    simp only [Except.ok.injEq, Decoded.mk.injEq] at h
    obtain ⟨hrec, -⟩ := h
    subst hrec
    unfold decodeBody at hb
    split at hb
    · exact absurd hb (by simp)
    · rename_i rl ba hl
      split at hb
      · exact absurd hb (by simp)
      · rename_i entries hd
        split at hb
        · exact absurd hb (by simp)
        · rename_i fields hfs
          simp only [Except.ok.injEq] at hb
          subst hb
          obtain ⟨hlen, hget⟩ := decodeFields_ok hfs
          refine ⟨entries, hd, hlen, ?_⟩
          intro i hi hf
          obtain ⟨hraw, hcls⟩ := decodeField_ok (hget i hi hf)
          exact ⟨hraw, hcls⟩

theorem c8_witness :
    ∃ entries, parseDirectory sampleSrc sampleRec.leader.baseAddress = Except.ok entries ∧
      sampleRec.fields.length = entries.length ∧
      ∀ i (hi : i < entries.length) (hf : i < sampleRec.fields.length),
        (rawOf sampleSrc sampleRec.leader.baseAddress (entries.get ⟨i, hi⟩)).length
            = (entries.get ⟨i, hi⟩).fieldLength ∧
        sampleRec.fields.get ⟨i, hf⟩
            = classify (entries.get ⟨i, hi⟩).tag
                (rawOf sampleSrc sampleRec.leader.baseAddress (entries.get ⟨i, hi⟩)) :=
  c8_directory_roundtrip sampleSrc sampleRec false (by decide)

/-- Translated from `src/benchmark.py`, `bench_many`: run `bench_once`
`repeats` times collecting counts and times, assert that the counts have
exactly one distinct value (`assert len(set(counts)) == 1`, modelled as
`Except.error ()` for the `AssertionError`), and otherwise return the first
count together with the list of run times.  One run of `bench_once` is
abstracted as the pair (count, time) it returns for the given run number. -/
def benchMany (runOnce : Nat → Nat × Nat) (repeats : Nat) : Except Unit (Nat × List Nat) :=
  if (((List.range repeats).map (fun i => (runOnce i).1)).dedup).length = 1 then
    Except.ok ((((List.range repeats).map (fun i => (runOnce i).1)).headD 0),
               (List.range repeats).map (fun i => (runOnce i).2))
  else Except.error ()

lemma dedup_length_one_iff {l : List Nat} (hne : l ≠ []) :
    l.dedup.length = 1 ↔ ∀ x ∈ l, x = l.headD 0 := by
  cases l with
  | nil => exact absurd rfl hne
  | cons a t =>
    constructor
    · intro h x hx
      obtain ⟨b, hb⟩ := List.length_eq_one.mp h
      have hxb : x = b := by
        have hm : x ∈ (a :: t).dedup := List.mem_dedup.mpr hx
        rw [hb] at hm
        simpa using hm
      have hab : a = b := by
        have hm : a ∈ (a :: t).dedup := List.mem_dedup.mpr (List.mem_cons_self a t)
        rw [hb] at hm
        simpa using hm
      simp [hxb, hab]
    · intro h
      have hall : ∀ x ∈ (a :: t).dedup, x = a := by
        intro x hx
        simpa using h x (List.mem_dedup.mp hx)
      have ha : a ∈ (a :: t).dedup := List.mem_dedup.mpr (List.mem_cons_self a t)
      have hnd : (a :: t).dedup.Nodup := List.nodup_dedup _
      cases hd : (a :: t).dedup with
      | nil => rw [hd] at ha; simp at ha
      | cons b u =>
        rw [hd] at hall hnd
        have hb : b = a := hall b (List.mem_cons_self _ _)
        cases u with
        | nil => simp
        | cons c u2 =>
          have hc : c = a := hall c (by simp)
          rw [hb, hc] at hnd
          simp at hnd

/-- Claim C10: for any sequence of run results and `repeats ≥ 1`,
`bench_many` raises its assertion exactly when the runs report record counts
that are not all equal, and otherwise returns the common count together with
the `repeats` run times. -/
theorem c10_bench_many_consistency (runOnce : Nat → Nat × Nat) (r : Nat) (hr : 1 ≤ r) :
    (benchMany runOnce r = Except.error () ↔
      ∃ i, i < r ∧ (runOnce i).1 ≠ (runOnce 0).1) ∧
    ((∀ i, i < r → (runOnce i).1 = (runOnce 0).1) →
      benchMany runOnce r
        = Except.ok ((runOnce 0).1, (List.range r).map (fun i => (runOnce i).2))) := by
  have hne : (List.range r).map (fun i => (runOnce i).1) ≠ [] := by
    simp [List.map_eq_nil_iff, List.range_eq_nil]
    omega
  have hhead : ((List.range r).map (fun i => (runOnce i).1)).headD 0 = (runOnce 0).1 := by
    obtain ⟨r2, rfl⟩ : ∃ r2, r = r2 + 1 := ⟨r - 1, by omega⟩
    rw [List.range_succ_eq_map]
    simp
  have hiff : (((List.range r).map (fun i => (runOnce i).1)).dedup).length = 1 ↔
      ∀ i, i < r → (runOnce i).1 = (runOnce 0).1 := by
    rw [dedup_length_one_iff hne, hhead]
    constructor
    · intro h i hi
      exact h _ (List.mem_map_of_mem _ (List.mem_range.mpr hi))
    · intro h x hx
      obtain ⟨i, hi, rfl⟩ := List.mem_map.mp hx
      exact h i (List.mem_range.mp hi)
  constructor
  · constructor
    · intro herr
      by_cases hcond : (((List.range r).map (fun i => (runOnce i).1)).dedup).length = 1
      · unfold benchMany at herr
        rw [if_pos hcond] at herr
        exact absurd herr (by simp)
      · have hnall := hcond
        rw [hiff] at hnall
        push_neg at hnall
        exact hnall
    · rintro ⟨i, hi, hnei⟩
      have hcond : ¬ (((List.range r).map (fun i => (runOnce i).1)).dedup).length = 1 :=
        fun hcond => hnei ((hiff.mp hcond) i hi)
      unfold benchMany
      rw [if_neg hcond]
  · intro hall
    have hcond := hiff.mpr hall
    unfold benchMany
    rw [if_pos hcond, hhead]

/-- A fixed run-result sequence: every run reports 5 records. -/
def constRun : Nat → Nat × Nat := fun i => (5, i)

theorem c10_witness :
    (1 : Nat) ≤ 2 ∧
    ((benchMany constRun 2 = Except.error () ↔
        ∃ i, i < 2 ∧ (constRun i).1 ≠ (constRun 0).1) ∧
     ((∀ i, i < 2 → (constRun i).1 = (constRun 0).1) →
       benchMany constRun 2
         = Except.ok ((constRun 0).1, (List.range 2).map (fun i => (constRun i).2)))) :=
  ⟨by decide, c10_bench_many_consistency constRun 2 (by decide)⟩

end Marc
